import Mathlib

/-!
# Verification of the QMSS inspection pipeline

A shallow embedding of the core data pipeline of the repository:

* `src/data/src/features.py` : `build_establishment_history`, `compute_hygiene_index`
* `src/data/src/aggregate.py` : `aggregate_by_zip`
* `src/data/cleaning.py` : `spatially_join_zip`

Modelling conventions:

* A pandas column holding possibly-missing values (NaN / NaT) is a Lean
  `Option` type; `none` is the missing value.  Float NaN semantics are kept:
  arithmetic on a missing value yields a missing value, while pandas
  reductions (`min`, `max`, `median`, `mean`) skip missing entries and are
  missing only when every entry is missing (skipna semantics).
* Numeric values are `ℚ` (scores, index values) and `ℤ` (dates as day
  ordinals in the history builder, month ordinals for periods).
* Column presence (`"violation_code" in df.columns`) is a Boolean flag on
  the data-frame value since it is a frame-level, not row-level, property.
* pandas sorts strings lexicographically by code point; `lexLt` below is
  that order on the underlying character lists, written so that the kernel
  can evaluate it on concrete data.
-/

namespace QMSS

/-- Lexicographic strict order on character lists (the order pandas uses when
sorting a string column). -/
def lexLt : List Char → List Char → Bool
  | [], [] => false
  | [], _ :: _ => true
  | _ :: _, [] => false
  | a :: as, b :: bs => if a < b then true else if b < a then false else lexLt as bs

theorem lexLt_irrefl : ∀ l : List Char, lexLt l l = false
  | [] => rfl
  | a :: as => by
      simp only [lexLt, lt_irrefl, if_false]
      exact lexLt_irrefl as

theorem lexLt_asymm : ∀ l₁ l₂ : List Char, lexLt l₁ l₂ = true → lexLt l₂ l₁ = false
  | [], [], h => by simp [lexLt] at h
  | [], _ :: _, _ => rfl
  | _ :: _, [], h => by simp [lexLt] at h
  | a :: as, b :: bs, h => by
      by_cases hab : a < b
      · have hba : ¬ b < a := lt_asymm hab
        simp [lexLt, hba, hab]
      · by_cases hba : b < a
        · simp [lexLt, hab, hba] at h
        · simp only [lexLt, hab, hba, if_false] at h ⊢
          exact lexLt_asymm as bs h

theorem lexLt_trans : ∀ l₁ l₂ l₃ : List Char,
    lexLt l₁ l₂ = true → lexLt l₂ l₃ = true → lexLt l₁ l₃ = true
  | [], _, _ :: _, _, _ => rfl
  | [], l₂, [], _, h₂ => by cases l₂ <;> simp [lexLt] at h₂
  | _ :: _, [], _, h₁, _ => by simp [lexLt] at h₁
  | _ :: _, _ :: _, [], _, h₂ => by simp [lexLt] at h₂
  | a :: as, b :: bs, c :: cs, h₁, h₂ => by
      by_cases hab : a < b <;> by_cases hbc : b < c
      · have : a < c := lt_trans hab hbc
        simp [lexLt, this]
      · by_cases hcb : c < b
        · by_cases hac : a < c
          · simp [lexLt, hac]
          · simp [lexLt, hbc, hcb] at h₂
        · have hbc' : b = c := le_antisymm (le_of_not_lt hcb) (le_of_not_lt hbc)
          subst hbc'
          simp [lexLt, hab]
      · by_cases hba : b < a
        · simp [lexLt, hab, hba] at h₁
        · have hba' : a = b := le_antisymm (le_of_not_lt hba) (le_of_not_lt hab)
          subst hba'
          simp [lexLt, hbc]
      · by_cases hba : b < a
        · simp [lexLt, hab, hba] at h₁
        · by_cases hcb : c < b
          · simp [lexLt, hbc, hcb] at h₂
          · have hab' : a = b := le_antisymm (le_of_not_lt hba) (le_of_not_lt hab)
            have hbc' : b = c := le_antisymm (le_of_not_lt hcb) (le_of_not_lt hbc)
            have hac : ¬ a < c := by rw [hab', hbc']; exact lt_irrefl c
            have hca : ¬ c < a := by rw [hab', hbc']; exact lt_irrefl c
            simp only [lexLt, hab, hba, if_false] at h₁
            simp only [lexLt, hbc, hcb, if_false] at h₂
            simp only [lexLt, hac, hca, if_false]
            exact lexLt_trans as bs cs h₁ h₂

theorem lexLt_total_of_ne : ∀ l₁ l₂ : List Char,
    l₁ ≠ l₂ → lexLt l₁ l₂ = true ∨ lexLt l₂ l₁ = true
  | [], [], h => absurd rfl h
  | [], _ :: _, _ => Or.inl rfl
  | _ :: _, [], _ => Or.inr rfl
  | a :: as, b :: bs, h => by
      by_cases hab : a < b
      · exact Or.inl (by simp [lexLt, hab])
      · by_cases hba : b < a
        · exact Or.inr (by simp [lexLt, hba])
        · have hba' : a = b := le_antisymm (le_of_not_lt hba) (le_of_not_lt hab)
          subst hba'
          have hne : as ≠ bs := fun hh => h (by rw [hh])
          rcases lexLt_total_of_ne as bs hne with h' | h'
          · exact Or.inl (by simpa [lexLt, lt_irrefl] using h')
          · exact Or.inr (by simpa [lexLt, lt_irrefl] using h')

/-- Strings are equal iff their character lists are equal. -/
theorem string_data_inj {a b : String} (h : a.data = b.data) : a = b := by
  cases a with
  | mk da => cases b with
    | mk db => exact congrArg String.mk (by simpa using h)

/-- Sort key comparison used to model a pandas `sort_values` / `groupby` on a
(string, value) pair of columns: first component lexicographic by code point,
ties broken by the second component. -/
def pairLeB {β : Type} [LinearOrder β] (a b : String × β) : Bool :=
  if a.1 = b.1 then decide (a.2 ≤ b.2) else lexLt a.1.data b.1.data

/-- The proposition form of `pairLeB`. -/
def PairLe {β : Type} [LinearOrder β] (a b : String × β) : Prop :=
  pairLeB a b = true

instance {β : Type} [LinearOrder β] : DecidableRel (PairLe (β := β)) :=
  fun a b => decEq (pairLeB a b) true

instance {β : Type} [LinearOrder β] : IsTotal (String × β) PairLe where
  total a b := by
    unfold PairLe pairLeB
    by_cases h : a.1 = b.1
    · simp only [h, if_pos rfl, if_true]
      rcases le_total a.2 b.2 with h' | h'
      · exact Or.inl (by simpa using h')
      · exact Or.inr (by simpa using h')
    · have h2 : ¬ b.1 = a.1 := fun hh => h hh.symm
      have hd : a.1.data ≠ b.1.data := fun hh => h (string_data_inj hh)
      simp only [if_neg h, if_neg h2]
      exact lexLt_total_of_ne _ _ hd

instance {β : Type} [LinearOrder β] : IsTrans (String × β) PairLe where
  trans a b c hab hbc := by
    unfold PairLe pairLeB at hab hbc ⊢
    by_cases h1 : a.1 = b.1 <;> by_cases h2 : b.1 = c.1
    · have h3 : a.1 = c.1 := h1.trans h2
      simp only [if_pos h1] at hab
      simp only [if_pos h2] at hbc
      simp only [if_pos h3]
      exact decide_eq_true (le_trans (of_decide_eq_true hab) (of_decide_eq_true hbc))
    · have h3 : ¬ a.1 = c.1 := fun hh => h2 (h1.symm.trans hh)
      simp only [if_neg h2] at hbc
      simp only [if_neg h3]
      rw [show a.1 = b.1 from h1]
      exact hbc
    · have h3 : ¬ a.1 = c.1 := fun hh => h1 (hh.trans h2.symm)
      simp only [if_neg h1] at hab
      simp only [if_neg h3]
      rw [show c.1 = b.1 from h2.symm]
      exact hab
    · simp only [if_neg h1] at hab
      simp only [if_neg h2] at hbc
      by_cases h3 : a.1 = c.1
      · exfalso
        have : lexLt b.1.data a.1.data = true := by rw [show a.1 = c.1 from h3]; exact hbc
        have := lexLt_asymm _ _ hab
        simp_all
      · simp only [if_neg h3]
        exact lexLt_trans _ _ _ hab hbc

instance {β : Type} [LinearOrder β] : IsAntisymm (String × β) PairLe where
  antisymm a b hab hba := by
    unfold PairLe pairLeB at hab hba
    by_cases h1 : a.1 = b.1
    · simp only [if_pos h1] at hab
      have h2 : b.1 = a.1 := h1.symm
      simp only [if_pos h2] at hba
      have := le_antisymm (of_decide_eq_true hab) (of_decide_eq_true hba)
      exact Prod.ext h1 this
    · have h2 : ¬ b.1 = a.1 := fun hh => h1 hh.symm
      simp only [if_neg h1] at hab
      simp only [if_neg h2] at hba
      have := lexLt_asymm _ _ hab
      simp_all

/-- pandas `Series.first` aggregation inside `groupby.agg`: the first
non-missing entry of the group, missing when all entries are missing. -/
def firstNonNull {α : Type} (l : List (Option α)) : Option α :=
  (l.filterMap id).head?

/-- Minimum of a list of rationals (`none` on the empty list). -/
def minQ : List ℚ → Option ℚ
  | [] => none
  | x :: xs => some (xs.foldl min x)

/-- Maximum of a list of rationals (`none` on the empty list). -/
def maxQ : List ℚ → Option ℚ
  | [] => none
  | x :: xs => some (xs.foldl max x)

/-- pandas `Series.min` with skipna semantics over a nullable column. -/
def seriesMin (l : List (Option ℚ)) : Option ℚ := minQ (l.filterMap id)

/-- pandas `Series.max` with skipna semantics over a nullable column. -/
def seriesMax (l : List (Option ℚ)) : Option ℚ := maxQ (l.filterMap id)

theorem foldl_min_le_init : ∀ (xs : List ℚ) (x : ℚ), xs.foldl min x ≤ x
  | [], _ => le_refl _
  | y :: ys, x => le_trans (foldl_min_le_init ys (min x y)) (min_le_left _ _)

theorem foldl_min_le_mem : ∀ (xs : List ℚ) (x y : ℚ), y ∈ xs → xs.foldl min x ≤ y
  | [], _, _, h => absurd h (List.not_mem_nil _)
  | z :: zs, x, y, h => by
      rcases List.mem_cons.mp h with h | h
      · subst h
        exact le_trans (foldl_min_le_init zs (min x y)) (min_le_right _ _)
      · exact foldl_min_le_mem zs (min x z) y h

theorem le_foldl_max_init : ∀ (xs : List ℚ) (x : ℚ), x ≤ xs.foldl max x
  | [], _ => le_refl _
  | y :: ys, x => le_trans (le_max_left _ _) (le_foldl_max_init ys (max x y))

theorem mem_le_foldl_max : ∀ (xs : List ℚ) (x y : ℚ), y ∈ xs → y ≤ xs.foldl max x
  | [], _, _, h => absurd h (List.not_mem_nil _)
  | z :: zs, x, y, h => by
      rcases List.mem_cons.mp h with h | h
      · subst h
        exact le_trans (le_max_right _ _) (le_foldl_max_init zs (max x y))
      · exact mem_le_foldl_max zs (max x z) y h

theorem seriesMin_le {l : List (Option ℚ)} {m x : ℚ}
    (hm : seriesMin l = some m) (hx : some x ∈ l) : m ≤ x := by
  unfold seriesMin at hm
  have hx' : x ∈ l.filterMap id := List.mem_filterMap.mpr ⟨some x, hx, rfl⟩
  cases h : l.filterMap id with
  | nil => simp [h] at hx'
  | cons a as =>
      rw [h] at hm hx'
      unfold minQ at hm
      have hma : m = as.foldl min a := by simpa using hm.symm
      subst hma
      rcases List.mem_cons.mp hx' with h' | h'
      · subst h'
        exact foldl_min_le_init as x
      · exact foldl_min_le_mem as a x h'

theorem le_seriesMax {l : List (Option ℚ)} {m x : ℚ}
    (hm : seriesMax l = some m) (hx : some x ∈ l) : x ≤ m := by
  unfold seriesMax at hm
  have hx' : x ∈ l.filterMap id := List.mem_filterMap.mpr ⟨some x, hx, rfl⟩
  cases h : l.filterMap id with
  | nil => simp [h] at hx'
  | cons a as =>
      rw [h] at hm hx'
      unfold maxQ at hm
      have hma : m = as.foldl max a := by simpa using hm.symm
      subst hma
      rcases List.mem_cons.mp hx' with h' | h'
      · subst h'
        exact le_foldl_max_init as x
      · exact mem_le_foldl_max as a x h'

theorem seriesMin_isSome {l : List (Option ℚ)} {x : ℚ} (hx : some x ∈ l) :
    ∃ m, seriesMin l = some m := by
  unfold seriesMin
  have hx' : x ∈ l.filterMap id := List.mem_filterMap.mpr ⟨some x, hx, rfl⟩
  cases h : l.filterMap id with
  | nil => simp [h] at hx'
  | cons a as => exact ⟨as.foldl min a, rfl⟩

theorem seriesMax_isSome {l : List (Option ℚ)} {x : ℚ} (hx : some x ∈ l) :
    ∃ m, seriesMax l = some m := by
  unfold seriesMax
  have hx' : x ∈ l.filterMap id := List.mem_filterMap.mpr ⟨some x, hx, rfl⟩
  cases h : l.filterMap id with
  | nil => simp [h] at hx'
  | cons a as => exact ⟨as.foldl max a, rfl⟩

theorem foldl_min_const (q : ℚ) : ∀ (xs : List ℚ), (∀ y ∈ xs, y = q) → xs.foldl min q = q
  | [], _ => rfl
  | z :: zs, h => by
      have hz : z = q := h z (List.mem_cons_self _ _)
      subst hz
      rw [List.foldl_cons, min_self]
      exact foldl_min_const z zs fun y hy => h y (List.mem_cons_of_mem _ hy)

theorem foldl_max_const (q : ℚ) : ∀ (xs : List ℚ), (∀ y ∈ xs, y = q) → xs.foldl max q = q
  | [], _ => rfl
  | z :: zs, h => by
      have hz : z = q := h z (List.mem_cons_self _ _)
      subst hz
      rw [List.foldl_cons, max_self]
      exact foldl_max_const z zs fun y hy => h y (List.mem_cons_of_mem _ hy)

theorem filterMap_id_all_some {α : Type} {l : List (Option α)} {q : α}
    (hall : ∀ x ∈ l, x = some q) : l.filterMap id = l.map (fun _ => q) := by
  induction l with
  | nil => rfl
  | cons a as ih =>
      have ha : a = some q := hall a (List.mem_cons_self _ _)
      subst ha
      simp only [List.filterMap_cons, id, List.map_cons]
      exact congrArg (q :: ·) (ih fun x hx => hall x (List.mem_cons_of_mem _ hx))

theorem seriesMin_const {l : List (Option ℚ)} {q : ℚ}
    (hne : l ≠ []) (hall : ∀ x ∈ l, x = some q) : seriesMin l = some q := by
  unfold seriesMin
  rw [filterMap_id_all_some hall]
  cases l with
  | nil => exact absurd rfl hne
  | cons a as =>
      show minQ (q :: as.map fun _ => q) = some q
      show some ((as.map fun _ => q).foldl min q) = some q
      refine congrArg some (foldl_min_const q _ fun y hy => ?_)
      obtain ⟨x, _, hx⟩ := List.mem_map.mp hy
      exact hx.symm

theorem seriesMax_const {l : List (Option ℚ)} {q : ℚ}
    (hne : l ≠ []) (hall : ∀ x ∈ l, x = some q) : seriesMax l = some q := by
  unfold seriesMax
  rw [filterMap_id_all_some hall]
  cases l with
  | nil => exact absurd rfl hne
  | cons a as =>
      show maxQ (q :: as.map fun _ => q) = some q
      show some ((as.map fun _ => q).foldl max q) = some q
      refine congrArg some (foldl_max_const q _ fun y hy => ?_)
      obtain ⟨x, _, hx⟩ := List.mem_map.mp hy
      exact hx.symm

/-- pandas `Series.median` with skipna semantics: sort the non-missing values;
odd count takes the middle element, even count averages the two middles,
empty input gives a missing value. -/
def pandasMedian (l : List ℚ) : Option ℚ :=
  let s := List.insertionSort (· ≤ ·) l
  if s.length % 2 = 1 then s.get? (s.length / 2)
  else
    match s.get? (s.length / 2 - 1), s.get? (s.length / 2) with
    | some a, some b => some ((a + b) / 2)
    | _, _ => none

theorem pandasMedian_isSome {l : List ℚ} (h : l ≠ []) : ∃ m, pandasMedian l = some m := by
  unfold pandasMedian
  have hlen : (List.insertionSort (· ≤ ·) l).length = l.length :=
    (List.perm_insertionSort _ l).length_eq
  have hpos : 0 < (List.insertionSort (· ≤ ·) l).length := by
    rw [hlen]
    exact List.length_pos.mpr h
  by_cases hp : (List.insertionSort (· ≤ ·) l).length % 2 = 1
  · simp only [hp, if_pos]
    have hlt : (List.insertionSort (· ≤ ·) l).length / 2 < (List.insertionSort (· ≤ ·) l).length :=
      Nat.div_lt_self hpos (by norm_num)
    exact ⟨_, List.get?_eq_get hlt⟩
  · simp only [hp, if_neg, if_false]
    have h2 : (List.insertionSort (· ≤ ·) l).length / 2 < (List.insertionSort (· ≤ ·) l).length :=
      Nat.div_lt_self hpos (by norm_num)
    have h1 : (List.insertionSort (· ≤ ·) l).length / 2 - 1 < (List.insertionSort (· ≤ ·) l).length :=
      lt_of_le_of_lt (Nat.sub_le _ _) h2
    rw [List.get?_eq_get h1, List.get?_eq_get h2]
    exact ⟨_, rfl⟩

/-- pandas `Series.mean` with skipna semantics over a nullable column. -/
def seriesMean (l : List (Option ℚ)) : Option ℚ :=
  let v := l.filterMap id
  if v.length = 0 then none else some (v.sum / v.length)

/-- Whether the pattern occurs at the head of the list. -/
def startsWith : List Char → List Char → Bool
  | [], _ => true
  | _ :: _, [] => false
  | a :: as, b :: bs => a = b && startsWith as bs

/-- Contiguous-substring test, used for the case-insensitive closure
detection of `aggregate_by_zip`. -/
def containsSub : List Char → List Char → Bool
  | pat, [] => pat.isEmpty
  | pat, c :: rest => startsWith pat (c :: rest) || containsSub pat rest

/-- Lower-casing a string character by character. -/
def lowerStr (s : String) : String := ⟨s.data.map Char.toLower⟩

/-! ## History Builder: `build_establishment_history` in `src/data/src/features.py`

One normalized input row.  `inspection_date` is a day ordinal (dates have day
precision, so `(d₂ - d₁).dt.days` is exactly integer subtraction); `none` is
NaT.  `is_critical_description` is the Boolean column the Normalizer adds. -/
structure Row where
  camis : String
  inspection_date : Option ℤ
  score : Option ℚ
  grade : Option String
  violation_code : Option String
  violation_description : Option String
  is_critical_description : Bool
  action : Option String
deriving DecidableEq, Repr

/-- The input frame of `build_establishment_history`.  `hasViolationCode`
models the frame-level test `"violation_code" in df_sub.columns`; when it is
`false` the per-row `violation_code` entries are irrelevant (the column is
absent). -/
structure DataFrame where
  rows : List Row
  hasViolationCode : Bool
deriving DecidableEq, Repr

/-- The `(camis, inspection_date)` groupby key of a row; `none` when the date
is NaT, because `groupby` (with its default `dropna=True`) drops rows whose
key contains a missing value. -/
def groupKey (r : Row) : Option (String × ℤ) :=
  r.inspection_date.map (fun d => (r.camis, d))

/-- The sorted distinct `(camis, inspection_date)` keys produced by
`df_sub.groupby([camis_col, date_col])` (groupby emits its groups with sorted
keys; rows with NaT dates are dropped). -/
def keysOf (df : DataFrame) : List (String × ℤ) :=
  List.insertionSort PairLe ((df.rows.filterMap groupKey).dedup)

/-- The rows of one groupby group, in input order.  The source first runs
`df_sub.sort_values([camis_col, date_col])` (a stable sort) and then groups;
all rows of one group share the sort key, so their relative order inside the
group equals their original input order, and the group is the in-order filter
of the input rows. -/
def groupOf (df : DataFrame) (k : String × ℤ) : List Row :=
  df.rows.filter (fun r => decide (groupKey r = some k))

/-- One collapsed visit as produced by the `groupby(...).agg(...)` call,
before the lag columns are recomputed. -/
structure AggRow where
  camis : String
  inspection_date : ℤ
  violation_count : ℕ
  critical_violations : ℕ
  score : Option ℚ
  grade : Option String
  action : Option String
deriving DecidableEq, Repr

/-- The `.agg(...)` of one group: when the `violation_code` column exists,
`violation_count=("violation_code", "count")` counts the group's non-missing
codes; otherwise `violation_count=("violation_description", lambda s:
s.notna().sum())` counts non-missing descriptions.  `critical_violations` is
the sum of the Boolean column, and `score`/`grade`/`action` use the `"first"`
aggregation (first non-missing entry of the group). -/
def aggRow (df : DataFrame) (k : String × ℤ) : AggRow :=
  let g := groupOf df k
  { camis := k.1
    inspection_date := k.2
    violation_count :=
      if df.hasViolationCode then g.countP (fun r => r.violation_code.isSome)
      else g.countP (fun r => r.violation_description.isSome)
    critical_violations := g.countP (fun r => r.is_critical_description)
    score := firstNonNull (g.map (fun r => r.score))
    grade := firstNonNull (g.map (fun r => r.grade))
    action := firstNonNull (g.map (fun r => r.action)) }

/-- One row of the returned frame (a collapsed visit with lag columns). -/
structure Visit where
  camis : String
  inspection_date : ℤ
  violation_count : ℕ
  critical_violations : ℕ
  score : Option ℚ
  grade : Option String
  action : Option String
  inspection_number : ℕ
  prev_inspection_date : Option ℤ
  days_since_prev : Option ℤ
deriving DecidableEq, Repr

/-- Attach the lag columns to a collapsed visit: `days_since_prev` is the
datetime subtraction `inspection_date - prev_inspection_date` in days, NaN
(here `none`) when the previous date is missing. -/
def mkVisit (a : AggRow) (n : ℕ) (prev : Option ℤ) : Visit :=
  { camis := a.camis
    inspection_date := a.inspection_date
    violation_count := a.violation_count
    critical_violations := a.critical_violations
    score := a.score
    grade := a.grade
    action := a.action
    inspection_number := n
    prev_inspection_date := prev
    days_since_prev := prev.map (fun p => a.inspection_date - p) }

/-- `agg.groupby(camis).cumcount() + 1` and `agg.groupby(camis)[date].shift(1)`
traversal: each row's ordinal is one plus the number of earlier rows with the
same `camis`, and its previous date is the date of the last earlier row with
the same `camis`. -/
def lagsAux : List AggRow → List AggRow → List Visit
  | _, [] => []
  | seen, a :: rest =>
      let before := seen.filter (fun b => decide (b.camis = a.camis))
      mkVisit a (before.length + 1) ((before.getLast?).map (fun b => b.inspection_date)) ::
        lagsAux (seen ++ [a]) rest

/-- The lag-column pass over the aggregated frame (already sorted by
`(camis, inspection_date)`, which `agg.sort_values([camis_col, date_col])`
re-establishes on the groupby output). -/
def withLags (l : List AggRow) : List Visit := lagsAux [] l

/-- `build_establishment_history`: collapse to one row per
`(camis, inspection_date)` group, then recompute `inspection_number`,
`prev_inspection_date` and `days_since_prev` over the collapsed rows. -/
def buildEstablishmentHistory (df : DataFrame) : List Visit :=
  withLags ((keysOf df).map (aggRow df))

/-- The visits of one establishment, in output order. -/
def visitsOf (df : DataFrame) (c : String) : List Visit :=
  (buildEstablishmentHistory df).filter (fun v => decide (v.camis = c))

/-- Reference shape of the per-establishment output: consecutive numbering
from `n+1` with the previous date threaded through. -/
def chainVisits (n : ℕ) (prev : Option ℤ) : List AggRow → List Visit
  | [] => []
  | a :: rest => mkVisit a (n + 1) prev :: chainVisits (n + 1) (some a.inspection_date) rest

theorem lagsAux_filter (c : String) : ∀ (l seen : List AggRow),
    (lagsAux seen l).filter (fun v => decide (v.camis = c)) =
      chainVisits ((seen.filter (fun b => decide (b.camis = c))).length)
        (((seen.filter (fun b => decide (b.camis = c))).getLast?).map (fun b => b.inspection_date))
        (l.filter (fun b => decide (b.camis = c)))
  | [], seen => rfl
  | a :: rest, seen => by
      by_cases h : a.camis = c
      · have hsame : (fun b : AggRow => decide (b.camis = a.camis)) =
            (fun b : AggRow => decide (b.camis = c)) := by
          funext b; rw [h]
        have hfa : (a :: rest).filter (fun b => decide (b.camis = c)) =
            a :: rest.filter (fun b => decide (b.camis = c)) := by
          simp [List.filter_cons, h]
        have happ : (seen ++ [a]).filter (fun b => decide (b.camis = c)) =
            seen.filter (fun b => decide (b.camis = c)) ++ [a] := by
          simp [List.filter_append, List.filter_cons, h]
        have hv : (mkVisit a ((seen.filter (fun b => decide (b.camis = a.camis))).length + 1)
              (((seen.filter (fun b => decide (b.camis = a.camis))).getLast?).map
                (fun b => b.inspection_date))).camis = a.camis := rfl
        rw [hfa]
        show List.filter _ (mkVisit a _ _ :: lagsAux (seen ++ [a]) rest) = _
        rw [List.filter_cons]
        have hd : decide ((mkVisit a ((seen.filter (fun b => decide (b.camis = a.camis))).length + 1)
              (((seen.filter (fun b => decide (b.camis = a.camis))).getLast?).map
                (fun b => b.inspection_date))).camis = c) = true := by
          rw [hv]; exact decide_eq_true h
        rw [hd]
        simp only [hsame]
        rw [lagsAux_filter c rest (seen ++ [a]), happ]
        show mkVisit a _ _ :: _ = chainVisits _ _ (a :: _)
        rw [chainVisits]
        refine congrArg₂ (· :: ·) rfl ?_
        rw [List.length_append, List.getLast?_concat]
        rfl
      · have hfa : (a :: rest).filter (fun b => decide (b.camis = c)) =
            rest.filter (fun b => decide (b.camis = c)) := by
          simp [List.filter_cons, h]
        have happ : (seen ++ [a]).filter (fun b => decide (b.camis = c)) =
            seen.filter (fun b => decide (b.camis = c)) := by
          simp [List.filter_append, List.filter_cons, h]
        rw [hfa]
        show List.filter _ (mkVisit a _ _ :: lagsAux (seen ++ [a]) rest) = _
        rw [List.filter_cons]
        have hd : decide ((mkVisit a ((seen.filter (fun b => decide (b.camis = a.camis))).length + 1)
              (((seen.filter (fun b => decide (b.camis = a.camis))).getLast?).map
                (fun b => b.inspection_date))).camis = c) = false := by
          exact decide_eq_false h
        rw [hd]
        rw [lagsAux_filter c rest (seen ++ [a]), happ]
        rfl

theorem chainVisits_length : ∀ (l : List AggRow) (n : ℕ) (p : Option ℤ),
    (chainVisits n p l).length = l.length
  | [], _, _ => rfl
  | a :: rest, n, p => by
      simp only [chainVisits, List.length_cons]
      rw [chainVisits_length rest]

theorem chainVisits_map_number : ∀ (l : List AggRow) (n : ℕ) (p : Option ℤ),
    (chainVisits n p l).map (fun v => v.inspection_number) = List.range' (n + 1) l.length
  | [], _, _ => rfl
  | a :: rest, n, p => by
      simp only [chainVisits, List.map_cons, List.length_cons, List.range']
      refine congrArg₂ (· :: ·) rfl ?_
      exact chainVisits_map_number rest (n + 1) (some a.inspection_date)

theorem chainVisits_map_date : ∀ (l : List AggRow) (n : ℕ) (p : Option ℤ),
    (chainVisits n p l).map (fun v => v.inspection_date) = l.map (fun a => a.inspection_date)
  | [], _, _ => rfl
  | a :: rest, n, p => by
      simp only [chainVisits, List.map_cons]
      exact congrArg₂ (· :: ·) rfl (chainVisits_map_date rest _ _)

theorem chainVisits_chain : ∀ (l : List AggRow) (n : ℕ) (p : Option ℤ),
    List.Chain' (fun a b => b.prev_inspection_date = some a.inspection_date ∧
      b.days_since_prev = some (b.inspection_date - a.inspection_date)) (chainVisits n p l)
  | [], _, _ => List.chain'_nil
  | a :: rest, n, p => by
      rw [chainVisits]
      refine List.chain'_cons'.mpr ⟨?_, chainVisits_chain rest (n + 1) (some a.inspection_date)⟩
      intro y hy
      cases rest with
      | nil => simp [chainVisits] at hy
      | cons b rest' =>
          simp only [chainVisits, List.head?_cons] at hy
          have h2 := Option.some.inj (Option.mem_def.mp hy)
          subst h2
          exact ⟨rfl, rfl⟩

theorem chainVisits_head? (l : List AggRow) (n : ℕ) (p : Option ℤ) :
    (chainVisits n p l).head? = l.head?.map (fun a => mkVisit a (n + 1) p) := by
  cases l with
  | nil => rfl
  | cons a rest => rfl

theorem chainVisits_days : ∀ (l : List AggRow) (n : ℕ) (p : Option ℤ),
    ∀ v ∈ chainVisits n p l,
      v.days_since_prev = v.prev_inspection_date.map (fun q => v.inspection_date - q)
  | [], _, _, v, hv => absurd hv (List.not_mem_nil _)
  | a :: rest, n, p, v, hv => by
      rw [chainVisits] at hv
      rcases List.mem_cons.mp hv with h | h
      · subst h; rfl
      · exact chainVisits_days rest _ _ v h

theorem chainVisits_proj : ∀ (l₁ l₂ : List AggRow) (n : ℕ) (p : Option ℤ),
    l₁.map (fun a => a.inspection_date) = l₂.map (fun a => a.inspection_date) →
    (chainVisits n p l₁).map (fun v => (v.inspection_number, v.days_since_prev)) =
      (chainVisits n p l₂).map (fun v => (v.inspection_number, v.days_since_prev))
  | [], [], _, _, _ => rfl
  | [], _ :: _, _, _, h => by simp at h
  | _ :: _, [], _, _, h => by simp at h
  | a :: as, b :: bs, n, p, h => by
      simp only [List.map_cons, List.cons.injEq] at h
      simp only [chainVisits, List.map_cons]
      refine congrArg₂ (· :: ·) ?_ ?_
      · show (n + 1, p.map fun q => a.inspection_date - q) = (n + 1, p.map fun q => b.inspection_date - q)
        rw [h.1]
      · rw [h.1]
        exact chainVisits_proj as bs (n + 1) (some b.inspection_date) h.2

theorem mem_lagsAux : ∀ (l seen : List AggRow) (v : Visit), v ∈ lagsAux seen l →
    ∃ a ∈ l, v.camis = a.camis ∧ v.inspection_date = a.inspection_date ∧
      v.violation_count = a.violation_count
  | [], _, v, hv => absurd hv (List.not_mem_nil _)
  | a :: rest, seen, v, hv => by
      rw [lagsAux] at hv
      rcases List.mem_cons.mp hv with h | h
      · exact ⟨a, List.mem_cons_self _ _, by subst h; exact ⟨rfl, rfl, rfl⟩⟩
      · obtain ⟨b, hb, hb'⟩ := mem_lagsAux rest (seen ++ [a]) v h
        exact ⟨b, List.mem_cons_of_mem _ hb, hb'⟩

theorem keysOf_sorted (df : DataFrame) : List.Sorted PairLe (keysOf df) :=
  List.sorted_insertionSort PairLe _

theorem keysOf_nodup (df : DataFrame) : (keysOf df).Nodup :=
  (List.perm_insertionSort PairLe _).nodup_iff.mpr (List.nodup_dedup _)

theorem mem_keysOf {df : DataFrame} {k : String × ℤ} :
    k ∈ keysOf df ↔ ∃ r ∈ df.rows, groupKey r = some k := by
  unfold keysOf
  rw [(List.perm_insertionSort PairLe _).mem_iff, List.mem_dedup, List.mem_filterMap]

theorem groupKey_eq_some {r : Row} {c : String} {d : ℤ} :
    groupKey r = some (c, d) ↔ r.camis = c ∧ r.inspection_date = some d := by
  unfold groupKey
  cases h : r.inspection_date with
  | none => simp
  | some d' => simp

theorem visitsOf_eq_chain (df : DataFrame) (c : String) :
    visitsOf df c = chainVisits 0 none
      (((keysOf df).filter (fun k => decide (k.1 = c))).map (aggRow df)) := by
  unfold visitsOf buildEstablishmentHistory withLags
  rw [lagsAux_filter c _ []]
  show chainVisits 0 none _ = chainVisits 0 none _
  rw [List.filter_map]
  refine congrArg (chainVisits 0 none) (congrArg (List.map (aggRow df)) ?_)
  exact List.filter_congr fun k _ => rfl

theorem keys_dates_chain (df : DataFrame) (c : String) :
    List.Chain' (· < ·)
      (((keysOf df).filter (fun k => decide (k.1 = c))).map Prod.snd) := by
  have hs : List.Pairwise PairLe (keysOf df) := keysOf_sorted df
  have hn : List.Pairwise (· ≠ ·) (keysOf df) := keysOf_nodup df
  have himp : List.Pairwise (fun a b : String × ℤ => a.1 = c → b.1 = c → a.2 < b.2) (keysOf df) := by
    refine (hs.and hn).imp ?_
    rintro a b ⟨hle, hne⟩ hac hbc
    have h1 : a.1 = b.1 := hac.trans hbc.symm
    unfold PairLe pairLeB at hle
    rw [if_pos h1] at hle
    exact lt_of_le_of_ne (of_decide_eq_true hle) (fun he => hne (Prod.ext h1 he))
  have hfilter : List.Pairwise (fun a b : String × ℤ => a.2 < b.2)
      ((keysOf df).filter (fun k => decide (k.1 = c))) :=
    List.pairwise_filter.mpr himp
  exact (List.pairwise_map.mpr hfilter).chain'

theorem keys_filter_snd_perm (df : DataFrame) (c : String) :
    (((keysOf df).filter (fun k => decide (k.1 = c))).map Prod.snd).Perm
      ((df.rows.filterMap
        (fun r => if r.camis = c then r.inspection_date else none)).dedup) := by
  refine (List.perm_ext_iff_of_nodup ?_ ?_).mpr ?_
  · refine List.Nodup.map_on ?_ ((keysOf_nodup df).filter _)
    intro x hx y hy hxy
    have hxc : x.1 = c := of_decide_eq_true (List.mem_filter.mp hx).2
    have hyc : y.1 = c := of_decide_eq_true (List.mem_filter.mp hy).2
    exact Prod.ext (hxc.trans hyc.symm) hxy
  · exact List.nodup_dedup _
  · intro d
    rw [List.mem_dedup, List.mem_map, List.mem_filterMap]
    constructor
    · rintro ⟨k, hk, hkd⟩
      have hk1 : k ∈ keysOf df := (List.mem_filter.mp hk).1
      have hkc : k.1 = c := of_decide_eq_true (List.mem_filter.mp hk).2
      obtain ⟨r, hr, hgr⟩ := mem_keysOf.mp hk1
      have hkeq : k = (c, d) := Prod.ext hkc hkd
      subst hkeq
      obtain ⟨h1, h2⟩ := groupKey_eq_some.mp hgr
      exact ⟨r, hr, by rw [if_pos h1]; exact h2⟩
    · rintro ⟨r, hr, hif⟩
      by_cases h1 : r.camis = c
      · rw [if_pos h1] at hif
        have hmem : (c, d) ∈ keysOf df :=
          mem_keysOf.mpr ⟨r, hr, groupKey_eq_some.mpr ⟨h1, hif⟩⟩
        exact ⟨(c, d), List.mem_filter.mpr ⟨hmem, decide_eq_true rfl⟩, rfl⟩
      · rw [if_neg h1] at hif
        exact absurd hif (by simp)

theorem keysOf_eq_of_perm {df₁ df₂ : DataFrame} (h : df₁.rows.Perm df₂.rows) :
    keysOf df₁ = keysOf df₂ := by
  have h1 : ((df₁.rows.filterMap groupKey).dedup).Perm ((df₂.rows.filterMap groupKey).dedup) :=
    (h.filterMap groupKey).dedup
  have h2 : (keysOf df₁).Perm (keysOf df₂) :=
    ((List.perm_insertionSort PairLe _).trans h1).trans
      (List.perm_insertionSort PairLe _).symm
  exact List.eq_of_perm_of_sorted h2 (keysOf_sorted df₁) (keysOf_sorted df₂)

theorem filterMap_groupKey_filter (rows : List Row) :
    (rows.filter (fun r => r.inspection_date.isSome)).filterMap groupKey =
      rows.filterMap groupKey := by
  induction rows with
  | nil => rfl
  | cons r rs ih =>
      cases h : r.inspection_date with
      | none =>
          rw [List.filter_cons, List.filterMap_cons]
          have h1 : r.inspection_date.isSome = false := by rw [h]; rfl
          have h2 : groupKey r = none := by unfold groupKey; rw [h]; rfl
          rw [h1, h2]
          simpa using ih
      | some d =>
          rw [List.filter_cons, List.filterMap_cons]
          have h1 : r.inspection_date.isSome = true := by rw [h]; rfl
          have h2 : groupKey r = some (r.camis, d) := by unfold groupKey; rw [h]; rfl
          rw [h1, h2]
          simp only [if_pos]
          rw [List.filterMap_cons, h2]
          exact congrArg _ ih

theorem groupOf_filter (rows : List Row) (flag : Bool) (k : String × ℤ) :
    groupOf ⟨rows.filter (fun r => r.inspection_date.isSome), flag⟩ k =
      groupOf ⟨rows, flag⟩ k := by
  unfold groupOf
  show (rows.filter _).filter _ = rows.filter _
  rw [List.filter_filter]
  refine List.filter_congr fun r _ => ?_
  cases hg : decide (groupKey r = some k) with
  | false => simp
  | true =>
      have hk : groupKey r = some k := of_decide_eq_true hg
      have : r.inspection_date.isSome = true := by
        unfold groupKey at hk
        cases h : r.inspection_date with
        | none => rw [h] at hk; exact absurd hk (by simp)
        | some d => rfl
      rw [this]
      rfl

/-- C7: for every establishment, the `inspection_number` values of its visits,
read in output order (which is ascending `inspection_date` order), are exactly
the strictly increasing sequence 1, 2, 3, …; moreover the number of visits is
the number of distinct non-null inspection dates among that establishment's
input rows, i.e. the numbering is over collapsed visits, not raw rows. -/
theorem inspection_number_sequence (df : DataFrame) (c : String) :
    (visitsOf df c).map (fun v => v.inspection_number) =
        List.range' 1 (visitsOf df c).length
    ∧ List.Chain' (fun a b => a.inspection_date < b.inspection_date) (visitsOf df c)
    ∧ (visitsOf df c).length =
        ((df.rows.filterMap
          (fun r => if r.camis = c then r.inspection_date else none)).dedup).length := by
  have hchain := visitsOf_eq_chain df c
  refine ⟨?_, ?_, ?_⟩
  · rw [hchain, chainVisits_map_number, chainVisits_length]
  · have h1 : List.Chain' (· < ·) ((visitsOf df c).map (fun v => v.inspection_date)) := by
      rw [hchain, chainVisits_map_date, List.map_map]
      exact keys_dates_chain df c
    exact (List.chain'_map _).mp h1
  · rw [hchain, chainVisits_length, List.length_map]
    have h2 := (keys_filter_snd_perm df c).length_eq
    rw [List.length_map] at h2
    exact h2

/-- C8: `days_since_prev` is null on the first visit of every establishment;
on every later visit it equals the exact integer day difference from the
immediately preceding visit's date; and it is null whenever the previous date
is null (output dates themselves are never null, cf. the C2 analysis). -/
theorem days_since_prev_spec (df : DataFrame) (c : String) :
    (∀ v, (visitsOf df c).head? = some v →
        v.prev_inspection_date = none ∧ v.days_since_prev = none)
    ∧ List.Chain' (fun a b => b.prev_inspection_date = some a.inspection_date ∧
        b.days_since_prev = some (b.inspection_date - a.inspection_date)) (visitsOf df c)
    ∧ ∀ v ∈ visitsOf df c, v.prev_inspection_date = none → v.days_since_prev = none := by
  have hchain := visitsOf_eq_chain df c
  refine ⟨?_, ?_, ?_⟩
  · intro v hv
    rw [hchain, chainVisits_head?] at hv
    obtain ⟨a, _, hfa⟩ := Option.map_eq_some'.mp hv
    rw [← hfa]
    exact ⟨rfl, rfl⟩
  · rw [hchain]
    exact chainVisits_chain _ _ _
  · intro v hv hp
    rw [hchain] at hv
    have hd := chainVisits_days _ _ _ v hv
    rw [hd, hp]
    rfl

/-- C9: the `(inspection_number, days_since_prev)` sequence of every
establishment is invariant under permuting the input rows; in particular two
runs of the History Builder on the same normalized input agree. -/
theorem history_builder_order_invariant (df₁ df₂ : DataFrame)
    (hperm : df₁.rows.Perm df₂.rows) (c : String) :
    (visitsOf df₁ c).map (fun v => (v.inspection_number, v.days_since_prev)) =
      (visitsOf df₂ c).map (fun v => (v.inspection_number, v.days_since_prev)) := by
  have hk := keysOf_eq_of_perm hperm
  rw [visitsOf_eq_chain, visitsOf_eq_chain, hk]
  apply chainVisits_proj
  rw [List.map_map, List.map_map]
  exact List.map_congr_left fun k _ => rfl

/-- C1 (amended): every output visit's `violation_count` is the number of rows
of its `(camis, inspection_date)` group with a non-null `violation_code` when
the frame has a `violation_code` column, and otherwise the number of rows with
a non-null `violation_description`; it is not, in general, the size of the
group, and the branch is on column presence, not per-group code presence. -/
theorem violation_count_of_group (df : DataFrame) (v : Visit)
    (hv : v ∈ buildEstablishmentHistory df) :
    v.violation_count =
      if df.hasViolationCode
      then (groupOf df (v.camis, v.inspection_date)).countP
        (fun r => r.violation_code.isSome)
      else (groupOf df (v.camis, v.inspection_date)).countP
        (fun r => r.violation_description.isSome) := by
  unfold buildEstablishmentHistory withLags at hv
  obtain ⟨a, ha, hc, hd, hcnt⟩ := mem_lagsAux _ [] v hv
  obtain ⟨k, hk, hak⟩ := List.mem_map.mp ha
  subst hak
  rw [hcnt, hc, hd]
  show (aggRow df k).violation_count = _
  cases k with
  | mk k1 k2 => rfl

/-- C2 (amended): the groupby drops rows with a null `inspection_date` (pandas
default `dropna=True`): deleting them from the input leaves the History
Builder's output unchanged, so they produce no visit at all. -/
theorem nullDate_rows_dropped (df : DataFrame) :
    buildEstablishmentHistory df =
      buildEstablishmentHistory
        ⟨df.rows.filter (fun r => r.inspection_date.isSome), df.hasViolationCode⟩ := by
  have hkeys : keysOf df =
      keysOf ⟨df.rows.filter (fun r => r.inspection_date.isSome), df.hasViolationCode⟩ := by
    unfold keysOf
    show List.insertionSort PairLe (df.rows.filterMap groupKey).dedup = _
    rw [show (⟨df.rows.filter (fun r => r.inspection_date.isSome),
        df.hasViolationCode⟩ : DataFrame).rows.filterMap groupKey = df.rows.filterMap groupKey
      from filterMap_groupKey_filter df.rows]
  unfold buildEstablishmentHistory
  rw [← hkeys]
  refine congrArg withLags (List.map_congr_left fun k _ => ?_)
  unfold aggRow
  rw [show groupOf ⟨df.rows.filter (fun r => r.inspection_date.isSome),
      df.hasViolationCode⟩ k = groupOf ⟨df.rows, df.hasViolationCode⟩ k
    from groupOf_filter df.rows df.hasViolationCode k]

/-! Concrete inputs for the History Builder counterexamples and witnesses. -/

def conRowA : Row :=
  { camis := "1", inspection_date := some 100, score := none, grade := none,
    violation_code := some "10F", violation_description := some "rat",
    is_critical_description := false, action := none }

def conRowB : Row :=
  { camis := "1", inspection_date := some 100, score := none, grade := none,
    violation_code := none, violation_description := some "mice",
    is_critical_description := false, action := none }

def conDf1 : DataFrame := { rows := [conRowA, conRowB], hasViolationCode := true }

/-- C1 counterexample: a group of two rows sharing one `(camis, date)` key, a
`violation_code` present on one of them.  The claim demands
`violation_count = 2` (the group's row count); the code's
`("violation_code", "count")` aggregation yields 1 (non-null codes only). -/
theorem violation_count_counterexample :
    (buildEstablishmentHistory conDf1).map (fun v => v.violation_count) = [1]
    ∧ conDf1.hasViolationCode = true
    ∧ (groupOf conDf1 ("1", 100)).length = 2
    ∧ ∃ r ∈ groupOf conDf1 ("1", 100), r.violation_code.isSome := by decide

def w1Visit : Visit :=
  { camis := "1", inspection_date := 100, violation_count := 1,
    critical_violations := 0, score := none, grade := none, action := none,
    inspection_number := 1, prev_inspection_date := none, days_since_prev := none }

/-- C1 witness: the amended statement evaluated on a concrete frame. -/
theorem violation_count_witness :
    w1Visit ∈ buildEstablishmentHistory conDf1 ∧
    w1Visit.violation_count =
      if conDf1.hasViolationCode
      then (groupOf conDf1 (w1Visit.camis, w1Visit.inspection_date)).countP
        (fun r => r.violation_code.isSome)
      else (groupOf conDf1 (w1Visit.camis, w1Visit.inspection_date)).countP
        (fun r => r.violation_description.isSome) :=
  ⟨by decide, violation_count_of_group conDf1 w1Visit (by decide)⟩

def conRowN1 : Row :=
  { camis := "7", inspection_date := none, score := none, grade := none,
    violation_code := some "04L", violation_description := some "sewage backing up",
    is_critical_description := true, action := none }

def conRowN2 : Row :=
  { camis := "7", inspection_date := none, score := none, grade := none,
    violation_code := none, violation_description := some "evidence of mice",
    is_critical_description := false, action := none }

def conDf2 : DataFrame := { rows := [conRowN1, conRowN2], hasViolationCode := true }

/-- C2 counterexample: two null-date rows of establishment "7".  The claim
says they are kept and collapse into exactly one visit for that
establishment; the groupby (default `dropna=True`) drops them, and the
History Builder outputs no visit at all. -/
theorem nullDate_counterexample :
    buildEstablishmentHistory conDf2 = []
    ∧ conDf2.rows.length = 2
    ∧ ∀ r ∈ conDf2.rows, r.inspection_date = none ∧ r.camis = "7" := by decide

def w8RowA : Row :=
  { camis := "E1", inspection_date := some 19367, score := none, grade := none,
    violation_code := none, violation_description := some "evidence of rodent activity",
    is_critical_description := true, action := none }

def w8RowB : Row :=
  { camis := "E1", inspection_date := some 19431, score := none, grade := none,
    violation_code := none, violation_description := none,
    is_critical_description := false, action := none }

def w8Df : DataFrame := { rows := [w8RowA, w8RowB], hasViolationCode := false }

def w8V1 : Visit :=
  { camis := "E1", inspection_date := 19367, violation_count := 1,
    critical_violations := 1, score := none, grade := none, action := none,
    inspection_number := 1, prev_inspection_date := none, days_since_prev := none }

/-- C8 witness: the spec's own example dates (2023-01-10 and 2023-03-15 as
day ordinals 19367 and 19431, 64 days apart): the first visit has null
`prev_inspection_date` and `days_since_prev`. -/
theorem days_since_prev_witness :
    ((visitsOf w8Df "E1").head? = some w8V1 ∧ w8V1.prev_inspection_date = none ∧
        w8V1.days_since_prev = none)
    ∧ (w8V1 ∈ visitsOf w8Df "E1" ∧ w8V1.days_since_prev = none) :=
  ⟨⟨by decide, (days_since_prev_spec w8Df "E1").1 w8V1 (by decide)⟩,
   ⟨by decide, (days_since_prev_spec w8Df "E1").2.2 w8V1 (by decide) (by decide)⟩⟩

def w9DfA : DataFrame := { rows := [w8RowB, w8RowA], hasViolationCode := false }

/-- C9 witness: the History Builder applied to two row orders of one input
produces the same numbering and day-gap sequences. -/
theorem order_invariant_witness :
    w9DfA.rows.Perm w8Df.rows ∧
    (visitsOf w9DfA "E1").map (fun v => (v.inspection_number, v.days_since_prev)) =
      (visitsOf w8Df "E1").map (fun v => (v.inspection_number, v.days_since_prev)) :=
  ⟨by decide, history_builder_order_invariant w9DfA w8Df (by decide) "E1"⟩

/-! ## Hygiene Index Calculator: `compute_hygiene_index` in
`src/data/src/features.py`

The function reads three columns (`score`, `critical_violations`,
`violation_count`) of the cohort frame; all other columns are carried through
untouched.  Elementwise series arithmetic propagates NaN (`none`), reductions
use skipna semantics. -/

/-- One row of the cohort frame passed to `compute_hygiene_index` (in the
pipeline this is the History Builder's output).  Fields other than the three
the function reads are carried columns. -/
structure CRow where
  camis : String := ""
  inspection_date : Option ℤ := none
  grade : Option String := none
  action : Option String := none
  inspection_number : Option ℤ := none
  prev_inspection_date : Option ℤ := none
  days_since_prev : Option ℤ := none
  score : Option ℚ
  critical_violations : Option ℚ
  violation_count : Option ℚ
deriving DecidableEq, Repr

/-- The ε constant `1e-9` added to every scaling denominator. -/
def eps : ℚ := 1 / 1000000000

/-- Default `weight_score`. -/
def wScore : ℚ := 4 / 10

/-- Default `weight_critical`. -/
def wCritical : ℚ := 5 / 10

/-- Default `weight_violation_count`. -/
def wViolation : ℚ := 1 / 10

/-- `df["score"].median()` over the cohort. -/
def scoreMedian (cohort : List CRow) : Option ℚ :=
  pandasMedian (cohort.filterMap (fun r => r.score))

/-- `df["score"].fillna(df["score"].median())`: a missing score becomes the
cohort median; when every score is missing the median is itself NaN and the
fill leaves NaN in place. -/
def scoreFilled (cohort : List CRow) (r : CRow) : Option ℚ :=
  match r.score with
  | some q => some q
  | none => scoreMedian cohort

/-- The min-max scaling `(c - c.min()) / (c.max() - c.min() + 1e-9)` of one
entry, NaN-propagating: missing entry or missing extrema give NaN. -/
def scaleVal (x mn mx : Option ℚ) : Option ℚ :=
  match x, mn, mx with
  | some a, some m, some M => some ((a - m) / (M - m + eps))
  | _, _, _ => none

def sMin (cohort : List CRow) : Option ℚ := seriesMin (cohort.map (scoreFilled cohort))

def sMax (cohort : List CRow) : Option ℚ := seriesMax (cohort.map (scoreFilled cohort))

/-- `s_scaled` for one row. -/
def scoreScaled (cohort : List CRow) (r : CRow) : Option ℚ :=
  scaleVal (scoreFilled cohort r) (sMin cohort) (sMax cohort)

/-- `df["critical_violations"].fillna(0)` for one row. -/
def cvFilled (r : CRow) : ℚ := r.critical_violations.getD 0

def cvMin (cohort : List CRow) : Option ℚ :=
  seriesMin (cohort.map (fun r => some (cvFilled r)))

def cvMax (cohort : List CRow) : Option ℚ :=
  seriesMax (cohort.map (fun r => some (cvFilled r)))

/-- `cv_scaled` for one row. -/
def cvScaled (cohort : List CRow) (r : CRow) : Option ℚ :=
  scaleVal (some (cvFilled r)) (cvMin cohort) (cvMax cohort)

/-- `df["violation_count"].fillna(0)` for one row. -/
def vcFilled (r : CRow) : ℚ := r.violation_count.getD 0

def vcMin (cohort : List CRow) : Option ℚ :=
  seriesMin (cohort.map (fun r => some (vcFilled r)))

def vcMax (cohort : List CRow) : Option ℚ :=
  seriesMax (cohort.map (fun r => some (vcFilled r)))

/-- `vc_scaled` for one row. -/
def vcScaled (cohort : List CRow) (r : CRow) : Option ℚ :=
  scaleVal (some (vcFilled r)) (vcMin cohort) (vcMax cohort)

/-- `hygiene_index_raw = 0.4*s_scaled + 0.5*cv_scaled + 0.1*vc_scaled` for one
row, NaN-propagating through the weighted sum. -/
def rawIndex (cohort : List CRow) (r : CRow) : Option ℚ :=
  match scoreScaled cohort r, cvScaled cohort r, vcScaled cohort r with
  | some a, some b, some c => some (wScore * a + wCritical * b + wViolation * c)
  | _, _, _ => none

def rawMin (cohort : List CRow) : Option ℚ := seriesMin (cohort.map (rawIndex cohort))

def rawMax (cohort : List CRow) : Option ℚ := seriesMax (cohort.map (rawIndex cohort))

/-- `hygiene_index = 100 * (raw - raw.min()) / (raw.max() - raw.min() + 1e-9)`
for one row. -/
def hygieneIndex (cohort : List CRow) (r : CRow) : Option ℚ :=
  (scaleVal (rawIndex cohort r) (rawMin cohort) (rawMax cohort)).map (fun q => 100 * q)

/-- An output row: the input row plus the three added columns. -/
structure HRow where
  base : CRow
  score_filled : Option ℚ
  hygiene_index_raw : Option ℚ
  hygiene_index : Option ℚ
deriving DecidableEq, Repr

/-- `compute_hygiene_index` with the default weights: returns the cohort rows
in order, with the columns `score_filled`, `hygiene_index_raw` and
`hygiene_index` appended. -/
def computeHygieneIndex (cohort : List CRow) : List HRow :=
  cohort.map (fun r =>
    { base := r
      score_filled := scoreFilled cohort r
      hygiene_index_raw := rawIndex cohort r
      hygiene_index := hygieneIndex cohort r })

theorem scaleVal_bounds {a mn mx : ℚ} (h1 : mn ≤ a) (h2 : a ≤ mx) :
    ∃ q, scaleVal (some a) (some mn) (some mx) = some q ∧ 0 ≤ q ∧ q < 1 := by
  have heps : (0 : ℚ) < eps := by norm_num [eps]
  have hden : (0 : ℚ) < mx - mn + eps := by linarith
  refine ⟨(a - mn) / (mx - mn + eps), rfl, ?_, ?_⟩
  · exact div_nonneg (by linarith) (le_of_lt hden)
  · exact (div_lt_one hden).mpr (by linarith)

/-- C10: `compute_hygiene_index` returns exactly the input rows in the same
order, adding only the columns `score_filled`, `hygiene_index_raw` and
`hygiene_index` (the three extra fields of `HRow`), with every pre-existing
column's values unchanged.  Both it and `build_establishment_history` start
with `df = df.copy()` and assign columns only on the copy, so the frame the
caller passed is never mutated; in the embedding this is captured by both
being pure functions of the input value. -/
theorem compute_hygiene_index_frame_effect (cohort : List CRow) :
    (computeHygieneIndex cohort).map (fun h => h.base) = cohort ∧
    (computeHygieneIndex cohort).length = cohort.length := by
  constructor
  · unfold computeHygieneIndex
    rw [List.map_map]
    show cohort.map (fun r => r) = cohort
    exact List.map_id' cohort
  · unfold computeHygieneIndex
    rw [List.length_map]

/-- C4 (amended): when every score in the cohort is null, `fillna(median)`
fills with NaN (the median of an all-NaN column is NaN), NaN propagates
through the scaled score component into both `hygiene_index_raw` and
`hygiene_index`, and every output index is NaN; the score component does not
contribute 0 (no division by zero occurs, but NaN is not avoided). -/
theorem allNullScore_nan_propagates (cohort : List CRow)
    (hall : ∀ r ∈ cohort, r.score = none) :
    ∀ h ∈ computeHygieneIndex cohort,
      h.score_filled = none ∧ h.hygiene_index_raw = none ∧ h.hygiene_index = none := by
  have hmed : scoreMedian cohort = none := by
    unfold scoreMedian
    have hnil : cohort.filterMap (fun r => r.score) = [] := by
      rw [List.filterMap_eq_nil_iff]
      exact hall
    rw [hnil]
    rfl
  intro h hh
  obtain ⟨r, hr, hre⟩ := List.mem_map.mp hh
  subst hre
  have hsf : scoreFilled cohort r = none := by
    unfold scoreFilled
    rw [hall r hr, hmed]
  refine ⟨hsf, ?_, ?_⟩
  · show rawIndex cohort r = none
    unfold rawIndex scoreScaled
    rw [hsf]
    rfl
  · show hygieneIndex cohort r = none
    unfold hygieneIndex rawIndex scoreScaled
    rw [hsf]
    rfl

/-- C3 (amended): provided at least one visit of the cohort has a non-null
score, every computed hygiene index (the `hygiene_index` value attached to
each cohort row by `compute_hygiene_index`) is defined and lies in [0,100];
and when additionally every visit carries one identical non-null score, one
identical critical-violation count and one identical violation count (in
particular a size-1 cohort with non-null score), every computed index is
exactly 0.  Without the non-null-score proviso the index is NaN, see the
counterexample. -/
theorem hygiene_index_range_and_const (cohort : List CRow) :
    ((∃ v ∈ cohort, v.score.isSome) →
      ∀ r ∈ cohort, ∃ q, hygieneIndex cohort r = some q ∧ 0 ≤ q ∧ q ≤ 100)
    ∧ (∀ s₀ cv₀ vc₀, (∀ v ∈ cohort, v.score = some s₀ ∧
          v.critical_violations = cv₀ ∧ v.violation_count = vc₀) →
        ∀ r ∈ cohort, hygieneIndex cohort r = some 0) := by
  constructor
  · rintro ⟨v, hv, hvs⟩ r hr
    obtain ⟨qv, hqv⟩ := Option.isSome_iff_exists.mp hvs
    have hmed : ∃ m, scoreMedian cohort = some m := by
      unfold scoreMedian
      have hqmem : qv ∈ cohort.filterMap (fun r => r.score) :=
        List.mem_filterMap.mpr ⟨v, hv, hqv⟩
      exact pandasMedian_isSome (List.ne_nil_of_mem hqmem)
    obtain ⟨m, hm⟩ := hmed
    have hsf : ∀ r' : CRow, ∃ a, scoreFilled cohort r' = some a := by
      intro r'
      unfold scoreFilled
      cases r'.score with
      | some q => exact ⟨q, rfl⟩
      | none => exact ⟨m, hm⟩
    obtain ⟨a, ha⟩ := hsf r
    have hamem : some a ∈ cohort.map (scoreFilled cohort) := by
      rw [← ha]
      exact List.mem_map_of_mem _ hr
    obtain ⟨mn, hmn⟩ := seriesMin_isSome hamem
    obtain ⟨mx, hmx⟩ := seriesMax_isSome hamem
    have hb1 : mn ≤ a := seriesMin_le hmn hamem
    have hb2 : a ≤ mx := le_seriesMax hmx hamem
    obtain ⟨qs, hqs, hqs0, hqs1⟩ := scaleVal_bounds hb1 hb2
    have hss : scoreScaled cohort r = some qs := by
      unfold scoreScaled sMin sMax
      rw [ha, hmn, hmx]
      exact hqs
    have hcvmem : some (cvFilled r) ∈ cohort.map (fun r' => some (cvFilled r')) :=
      List.mem_map_of_mem _ hr
    obtain ⟨cmn, hcmn⟩ := seriesMin_isSome hcvmem
    obtain ⟨cmx, hcmx⟩ := seriesMax_isSome hcvmem
    obtain ⟨qc, hqc, hqc0, hqc1⟩ :=
      scaleVal_bounds (seriesMin_le hcmn hcvmem) (le_seriesMax hcmx hcvmem)
    have hcs : cvScaled cohort r = some qc := by
      unfold cvScaled cvMin cvMax
      rw [hcmn, hcmx]
      exact hqc
    have hvcmem : some (vcFilled r) ∈ cohort.map (fun r' => some (vcFilled r')) :=
      List.mem_map_of_mem _ hr
    obtain ⟨vmn, hvmn⟩ := seriesMin_isSome hvcmem
    obtain ⟨vmx, hvmx⟩ := seriesMax_isSome hvcmem
    obtain ⟨qv2, hqv2, hqv20, hqv21⟩ :=
      scaleVal_bounds (seriesMin_le hvmn hvcmem) (le_seriesMax hvmx hvcmem)
    have hvs2 : vcScaled cohort r = some qv2 := by
      unfold vcScaled vcMin vcMax
      rw [hvmn, hvmx]
      exact hqv2
    have hraw : rawIndex cohort r = some (wScore * qs + wCritical * qc + wViolation * qv2) := by
      unfold rawIndex
      rw [hss, hcs, hvs2]
    have hrmem : some (wScore * qs + wCritical * qc + wViolation * qv2) ∈
        cohort.map (rawIndex cohort) := by
      rw [← hraw]
      exact List.mem_map_of_mem _ hr
    obtain ⟨rmn, hrmn⟩ := seriesMin_isSome hrmem
    obtain ⟨rmx, hrmx⟩ := seriesMax_isSome hrmem
    obtain ⟨qr, hqr, hqr0, hqr1⟩ :=
      scaleVal_bounds (seriesMin_le hrmn hrmem) (le_seriesMax hrmx hrmem)
    refine ⟨100 * qr, ?_, ?_, ?_⟩
    · unfold hygieneIndex rawMin rawMax
      rw [hraw, hrmn, hrmx, hqr]
      rfl
    · positivity
    · nlinarith
  · intro s₀ cv₀ vc₀ hconst r hr
    have hne : cohort ≠ [] := List.ne_nil_of_mem hr
    have hsfall : ∀ r' ∈ cohort, scoreFilled cohort r' = some s₀ := by
      intro r' hr'
      unfold scoreFilled
      rw [(hconst r' hr').1]
    have hmapne : cohort.map (scoreFilled cohort) ≠ [] := by
      simpa using hne
    have hmin : sMin cohort = some s₀ := by
      unfold sMin
      refine seriesMin_const hmapne ?_
      intro x hx
      obtain ⟨r', hr', hx'⟩ := List.mem_map.mp hx
      rw [← hx']
      exact hsfall r' hr'
    have hmax : sMax cohort = some s₀ := by
      unfold sMax
      refine seriesMax_const hmapne ?_
      intro x hx
      obtain ⟨r', hr', hx'⟩ := List.mem_map.mp hx
      rw [← hx']
      exact hsfall r' hr'
    have hzero : ∀ b : ℚ, scaleVal (some b) (some b) (some b) = some 0 := by
      intro b
      show some ((b - b) / (b - b + eps)) = some 0
      rw [sub_self, zero_div]
    have hss : scoreScaled cohort r = some 0 := by
      unfold scoreScaled
      rw [hsfall r hr, hmin, hmax]
      exact hzero s₀
    have hcvall : ∀ r' ∈ cohort, cvFilled r' = cvFilled r := by
      intro r' hr'
      unfold cvFilled
      rw [(hconst r' hr').2.1, (hconst r hr).2.1]
    have hcmin : cvMin cohort = some (cvFilled r) := by
      unfold cvMin
      refine seriesMin_const (by simpa using hne) ?_
      intro x hx
      obtain ⟨r', hr', hx'⟩ := List.mem_map.mp hx
      rw [← hx', hcvall r' hr']
    have hcmax : cvMax cohort = some (cvFilled r) := by
      unfold cvMax
      refine seriesMax_const (by simpa using hne) ?_
      intro x hx
      obtain ⟨r', hr', hx'⟩ := List.mem_map.mp hx
      rw [← hx', hcvall r' hr']
    have hcs : cvScaled cohort r = some 0 := by
      unfold cvScaled
      rw [hcmin, hcmax]
      exact hzero (cvFilled r)
    have hvcall : ∀ r' ∈ cohort, vcFilled r' = vcFilled r := by
      intro r' hr'
      unfold vcFilled
      rw [(hconst r' hr').2.2, (hconst r hr).2.2]
    have hvmin : vcMin cohort = some (vcFilled r) := by
      unfold vcMin
      refine seriesMin_const (by simpa using hne) ?_
      intro x hx
      obtain ⟨r', hr', hx'⟩ := List.mem_map.mp hx
      rw [← hx', hvcall r' hr']
    have hvmax : vcMax cohort = some (vcFilled r) := by
      unfold vcMax
      refine seriesMax_const (by simpa using hne) ?_
      intro x hx
      obtain ⟨r', hr', hx'⟩ := List.mem_map.mp hx
      rw [← hx', hvcall r' hr']
    have hvs2 : vcScaled cohort r = some 0 := by
      unfold vcScaled
      rw [hvmin, hvmax]
      exact hzero (vcFilled r)
    have hrawr : ∀ r' ∈ cohort, rawIndex cohort r' = some 0 := by
      intro r' hr'
      have hss' : scoreScaled cohort r' = some 0 := by
        unfold scoreScaled
        rw [hsfall r' hr', hmin, hmax]
        exact hzero s₀
      have hcs' : cvScaled cohort r' = some 0 := by
        unfold cvScaled
        rw [hcmin, hcmax, ← hcvall r' hr']
        exact hzero (cvFilled r')
      have hvs' : vcScaled cohort r' = some 0 := by
        unfold vcScaled
        rw [hvmin, hvmax, ← hvcall r' hr']
        exact hzero (vcFilled r')
      unfold rawIndex
      rw [hss', hcs', hvs']
      norm_num
    have hrmin : rawMin cohort = some 0 := by
      unfold rawMin
      refine seriesMin_const (by simpa using hne) ?_
      intro x hx
      obtain ⟨r', hr', hx'⟩ := List.mem_map.mp hx
      rw [← hx']
      exact hrawr r' hr'
    have hrmax : rawMax cohort = some 0 := by
      unfold rawMax
      refine seriesMax_const (by simpa using hne) ?_
      intro x hx
      obtain ⟨r', hr', hx'⟩ := List.mem_map.mp hx
      rw [← hx']
      exact hrawr r' hr'
    unfold hygieneIndex
    rw [hrawr r hr, hrmin, hrmax, hzero 0]
    norm_num

/-! Concrete cohorts for the Hygiene Index counterexamples and witnesses. -/

def con3Row : CRow := { score := none, critical_violations := some 0, violation_count := some 0 }

/-- C3 counterexample: a size-1 cohort whose single visit has a null score.
The claim demands index 0 for any size-1 cohort; the code computes NaN
(`fillna` with an all-NaN median leaves NaN, which propagates). -/
theorem hygiene_index_counterexample :
    ¬ ∀ h ∈ computeHygieneIndex [con3Row], h.hygiene_index = some 0 := by decide

def w4RowA : CRow := { score := none, critical_violations := some 0, violation_count := some 0 }

def w4RowB : CRow := { score := none, critical_violations := some 2, violation_count := some 1 }

def w4Cohort : List CRow := [w4RowA, w4RowB]

/-- C4 counterexample: a cohort in which every score is null.  The claim says
the score component contributes exactly 0 to every raw index with no NaN
propagation; in fact `hygiene_index_raw` is NaN on every row. -/
theorem score_component_counterexample :
    (computeHygieneIndex w4Cohort).map (fun h => h.hygiene_index_raw) = [none, none]
    ∧ w4Cohort.map (fun r => r.score) = [none, none] := by decide

def w4H : HRow :=
  { base := w4RowA, score_filled := none, hygiene_index_raw := none, hygiene_index := none }

/-- C4 witness: the amended statement evaluated on the all-null-score cohort. -/
theorem allNullScore_witness :
    (∀ r ∈ w4Cohort, r.score = none) ∧
    (w4H ∈ computeHygieneIndex w4Cohort ∧ w4H.score_filled = none ∧
      w4H.hygiene_index_raw = none ∧ w4H.hygiene_index = none) :=
  ⟨by decide, ⟨by decide, allNullScore_nan_propagates w4Cohort (by decide) w4H (by decide)⟩⟩

def w3RowA : CRow := { score := some 10, critical_violations := some 2, violation_count := some 3 }

def w3RowB : CRow := { score := none, critical_violations := some 0, violation_count := some 1 }

def w3CohortA : List CRow := [w3RowA, w3RowB]

def w3RowC : CRow := { score := some 10, critical_violations := some 1, violation_count := none }

def w3CohortB : List CRow := [w3RowC, w3RowC]

/-- C3 witness: both parts of the amended statement evaluated on concrete
cohorts (one mixed cohort, one constant cohort). -/
theorem hygiene_index_witness :
    ((∃ v ∈ w3CohortA, v.score.isSome) ∧
      ∃ q, hygieneIndex w3CohortA w3RowA = some q ∧ 0 ≤ q ∧ q ≤ 100)
    ∧ ((∀ v ∈ w3CohortB, v.score = some 10 ∧ v.critical_violations = some 1 ∧
          v.violation_count = none) ∧
      hygieneIndex w3CohortB w3RowC = some 0) :=
  ⟨⟨by decide, (hygiene_index_range_and_const w3CohortA).1 (by decide) w3RowA (by decide)⟩,
   ⟨by decide, (hygiene_index_range_and_const w3CohortB).2 10 (some 1) none (by decide)
      w3RowC (by decide)⟩⟩

/-! ## Geo-Resolver and Aggregator: `spatially_join_zip` in
`src/data/cleaning.py` and `aggregate_by_zip` in `src/data/src/aggregate.py`

Calendar dates appear here because the Aggregator buckets by calendar month;
a month bucket is keyed by its pandas `Period("M")` ordinal
`12*year + (month-1)`, which is order-isomorphic to the bucket's start
timestamp. -/

/-- A calendar date (year, month, day). -/
structure CalDate where
  y : ℤ
  m : ℤ
  d : ℤ
deriving DecidableEq, Repr

/-- One record as it flows from cleaning into aggregation: geographic fields
plus the visit fields `aggregate_by_zip` reads. -/
structure URow where
  camis : String := ""
  zipcode : Option String := none
  postal_code : Option String := none
  latitude : Option ℚ := none
  longitude : Option ℚ := none
  inspection_date : Option CalDate := none
  hygiene_index : Option ℚ := none
  inspection_number : Option ℤ := none
  score : Option ℚ := none
  critical_violations : Option ℚ := none
  action : Option String := none
deriving DecidableEq, Repr

/-- The frame seen by `spatially_join_zip`; the flags model which of the
`zipcode` / `postal_code` / `latitude`+`longitude` columns exist. -/
structure GeoDF where
  rows : List URow
  hasZipcodeCol : Bool
  hasPostalCol : Bool
  hasLatLonCols : Bool

/-- An available ZIP shapefile: `lookup` is the spatial join (the ZIP value of
the polygon containing a point, `none` when no polygon contains it or a
coordinate is NaN), and `hasZipField` says whether the joined frame offers one
of the shapefile's candidate ZIP columns (`ZIPCODE`/`ZIP`/`zip`, or its own
`zipcode`).  When it offers none, the candidate scan can still hit the
frame's own `zipcode` column, which the code then merely re-normalizes. -/
structure Shapefile where
  lookup : ℚ → ℚ → Option String
  hasZipField : Bool

/-- `astype(str)` on one entry of a nullable string column: a missing value
renders as the literal string "nan". -/
def strOfOpt : Option String → String
  | none => "nan"
  | some s => s

/-- Python `str.zfill`: left-pad with zeros to the width, keeping a leading
sign in front of the padding. -/
def zfill (w : ℕ) (s : String) : String :=
  let cs := s.data
  if w ≤ cs.length then s
  else
    match cs with
    | '+' :: rest => ⟨'+' :: (List.replicate (w - cs.length) '0' ++ rest)⟩
    | '-' :: rest => ⟨'-' :: (List.replicate (w - cs.length) '0' ++ rest)⟩
    | _ => ⟨List.replicate (w - cs.length) '0' ++ cs⟩

/-- `.astype(str).str.slice(0,5).str.zfill(5)` applied to one entry (after
`strOfOpt` has already rendered it as a string). -/
def normZip (s : String) : String := zfill 5 ⟨s.data.take 5⟩

/-- `spatially_join_zip`: prefer an existing `zipcode` column, else a
`postal_code` column; then, when a shapefile is provided and the frame has
latitude/longitude columns, spatially join and overwrite `zipcode` from the
first candidate ZIP column of the joined frame. -/
def spatiallyJoinZip (df : GeoDF) (sf : Option Shapefile) : GeoDF :=
  let df1 : GeoDF :=
    if df.hasZipcodeCol then
      { df with rows := df.rows.map (fun r =>
          { r with zipcode := some (normZip (strOfOpt r.zipcode)) }) }
    else if df.hasPostalCol then
      { df with
        rows := df.rows.map (fun r =>
            { r with zipcode := some (normZip (strOfOpt r.postal_code)) })
        hasZipcodeCol := true }
    else df
  match sf with
  | some s =>
      if df.hasLatLonCols then
        { df1 with
          rows := df1.rows.map (fun r =>
            let joined : Option String :=
              match r.latitude, r.longitude with
              | some la, some lo => s.lookup la lo
              | _, _ => none
            if s.hasZipField then { r with zipcode := some (normZip (strOfOpt joined)) }
            else if df1.hasZipcodeCol then
              { r with zipcode := some (normZip (strOfOpt r.zipcode)) }
            else r)
          hasZipcodeCol := s.hasZipField || df1.hasZipcodeCol }
      else df1
  | none => df1

/-- The pandas `Period("M")` ordinal of a date: the month bucket key
(`.dt.to_period("M")`; `.dt.to_timestamp()` maps it back to the bucket's
start instant, an order isomorphism). -/
def periodOf (dt : CalDate) : ℤ := 12 * dt.y + (dt.m - 1)

/-- The `(zipcode, period)` groupby key of a row, `none` exactly when
`dropna(subset=[date_col, zip_col])` removes the row. -/
def aKey (r : URow) : Option (String × ℤ) :=
  match r.zipcode, r.inspection_date with
  | some z, some dt => some (z, periodOf dt)
  | _, _ => none

/-- One group of the aggregation, in input order. -/
def aggGroupOf (rows : List URow) (k : String × ℤ) : List URow :=
  rows.filter (fun r => decide (aKey r = some k))

/-- The closure test of `closure_share`:
`s.str.contains("closed", case=False, na=False)`. -/
def isClosedAction (a : Option String) : Bool :=
  match a with
  | none => false
  | some s => containsSub "closed".data (lowerStr s).data

/-- One output row of `aggregate_by_zip`. -/
structure AOut where
  zipcode : String
  period : ℤ
  mean_hygiene_index : Option ℚ
  median_hygiene_index : Option ℚ
  inspections : ℕ
  unique_establishments : ℕ
  mean_score : Option ℚ
  mean_critical_violations : Option ℚ
  closure_share : ℚ
deriving Repr

/-- The `.agg(...)` of one `(zipcode, period)` group. -/
def aggOutRow (rows : List URow) (k : String × ℤ) : AOut :=
  let g := aggGroupOf rows k
  { zipcode := k.1
    period := k.2
    mean_hygiene_index := seriesMean (g.map (fun r => r.hygiene_index))
    median_hygiene_index := pandasMedian (g.filterMap (fun r => r.hygiene_index))
    inspections := g.countP (fun r => r.inspection_number.isSome)
    unique_establishments := ((g.map (fun r => r.camis)).dedup).length
    mean_score := seriesMean (g.map (fun r => r.score))
    mean_critical_violations := seriesMean (g.map (fun r => r.critical_violations))
    closure_share := ((g.countP (fun r => isClosedAction r.action) : ℚ)) / ((g.length : ℚ)) }

/-- `aggregate_by_zip`: coerce dates, drop rows with a missing date or
zipcode, bucket into months, and aggregate per `(zipcode, period)` group
(groupby emits sorted distinct keys). -/
def aggregateByZip (rows : List URow) : List AOut :=
  (List.insertionSort PairLe ((rows.filterMap aKey).dedup)).map (aggOutRow rows)

/-- C5 (amended): `aggregate_by_zip` itself introduces no sentinel keys —
every output row's `(zipcode, period)` key is the zipcode and month of some
input row whose zipcode and date are both non-null (rows failing either
filter are dropped by `dropna` and yield no key).  However, the upstream
`spatially_join_zip` stringifies a missing zipcode into the non-null
placeholder "00nan", so records missing a zipcode are not excluded from
aggregation but grouped under that placeholder — see the counterexample. -/
theorem aggregate_keys_provenance (rows : List URow) (k : String × ℤ)
    (hk : k ∈ (aggregateByZip rows).map (fun o => (o.zipcode, o.period))) :
    ∃ r ∈ rows, r.zipcode = some k.1 ∧
      ∃ dt, r.inspection_date = some dt ∧ periodOf dt = k.2 := by
  unfold aggregateByZip at hk
  rw [List.map_map] at hk
  have hid : ((fun o : AOut => (o.zipcode, o.period)) ∘ aggOutRow rows) = id := rfl
  rw [hid, List.map_id] at hk
  have hk2 : k ∈ (rows.filterMap aKey).dedup :=
    (List.perm_insertionSort PairLe _).mem_iff.mp hk
  obtain ⟨r, hr, hak⟩ := List.mem_filterMap.mp (List.mem_dedup.mp hk2)
  refine ⟨r, hr, ?_⟩
  unfold aKey at hak
  cases hz : r.zipcode with
  | none => rw [hz] at hak; exact absurd hak (by simp)
  | some z =>
      cases hd : r.inspection_date with
      | none => rw [hz, hd] at hak; exact absurd hak (by simp)
      | some dt =>
          rw [hz, hd] at hak
          have hkk := Option.some.inj hak
          subst hkk
          exact ⟨rfl, dt, rfl, rfl⟩

def con5Row : URow :=
  { camis := "X", zipcode := none, inspection_date := some ⟨2023, 2, 5⟩,
    inspection_number := some 1 }

def con5Df : GeoDF :=
  { rows := [con5Row], hasZipcodeCol := true, hasPostalCol := false, hasLatLonCols := false }

/-- C5 counterexample: a record with a missing zipcode is not excluded from
the aggregate output — `spatially_join_zip` turns the missing value into the
placeholder string "00nan" (`astype(str)` renders NaN as "nan", `zfill(5)`
pads), which survives the Aggregator's `dropna` and becomes an output key. -/
theorem sentinel_zip_counterexample :
    (aggregateByZip ((spatiallyJoinZip con5Df none).rows)).map (fun o => o.zipcode) = ["00nan"]
    ∧ con5Df.rows.map (fun r => r.zipcode) = [none] := by decide

def w5Row : URow :=
  { camis := "E1", zipcode := some "10001", inspection_date := some ⟨2023, 1, 10⟩,
    inspection_number := some 1 }

/-- C5 witness: the amended provenance statement at a concrete input
(January 2023 has month ordinal 12*2023 = 24276). -/
theorem aggregate_keys_witness :
    (("10001", (24276 : ℤ)) ∈ (aggregateByZip [w5Row]).map (fun o => (o.zipcode, o.period)))
    ∧ ∃ r ∈ [w5Row], r.zipcode = some "10001" ∧
        ∃ dt, r.inspection_date = some dt ∧ periodOf dt = 24276 :=
  ⟨by decide, aggregate_keys_provenance [w5Row] ("10001", 24276) (by decide)⟩

/-- C6 (amended): the precedence "explicit zip field > postal-code field"
holds only on the non-spatial path (no shapefile, or no latitude/longitude
columns).  When a shapefile with a usable ZIP field is provided and the frame
has coordinate columns, the spatial-join result overwrites `zipcode` on every
row — including rows that carried an explicit zip — matching the function's
docstring ("If a ZIP code shapefile is provided, perform spatial join …
Otherwise, prefer existing zipcode/postal_code fields"). -/
theorem zip_precedence (df : GeoDF) (sf : Option Shapefile) :
    ((sf = none ∨ df.hasLatLonCols = false) →
      (spatiallyJoinZip df sf).rows =
        (if df.hasZipcodeCol then
          df.rows.map (fun r => { r with zipcode := some (normZip (strOfOpt r.zipcode)) })
         else if df.hasPostalCol then
          df.rows.map (fun r => { r with zipcode := some (normZip (strOfOpt r.postal_code)) })
         else df.rows))
    ∧ (∀ s, sf = some s → df.hasLatLonCols = true → s.hasZipField = true →
        (spatiallyJoinZip df sf).rows = df.rows.map (fun r =>
          { r with zipcode := some (normZip (strOfOpt
              (match r.latitude, r.longitude with
               | some la, some lo => s.lookup la lo
               | _, _ => none))) })) := by
  obtain ⟨rows, hzc, hpc, hllc⟩ := df
  constructor
  · intro h
    cases hllc with
    | true =>
        rcases h with rfl | hll
        · cases hzc <;> cases hpc <;> rfl
        · exact absurd hll (by simp)
    | false =>
        cases sf with
        | none => cases hzc <;> cases hpc <;> rfl
        | some s => cases hzc <;> cases hpc <;> rfl
  · rintro s rfl hll hzf
    cases hllc with
    | false => exact absurd hll (by simp)
    | true =>
        obtain ⟨lk, zf⟩ := s
        cases zf with
        | false => exact absurd hzf (by simp)
        | true =>
            cases hzc with
            | true => exact (List.map_map _ _ _).trans (List.map_congr_left fun r _ => rfl)
            | false =>
                cases hpc with
                | true => exact (List.map_map _ _ _).trans (List.map_congr_left fun r _ => rfl)
                | false => exact List.map_congr_left fun r _ => rfl

def con6Row : URow := { zipcode := some "10001", latitude := some 1, longitude := some 2 }

def con6Df : GeoDF :=
  { rows := [con6Row], hasZipcodeCol := true, hasPostalCol := false, hasLatLonCols := true }

def con6Sf : Shapefile := { lookup := fun _ _ => some "99999", hasZipField := true }

/-- C6 counterexample: a row with the explicit zipcode "10001" whose
coordinates fall in the shapefile polygon "99999": with a shapefile provided,
the spatial result replaces the explicit zip. -/
theorem spatial_overwrite_counterexample :
    (spatiallyJoinZip con6Df (some con6Sf)).rows.map (fun r => r.zipcode) = [some "99999"]
    ∧ con6Df.rows.map (fun r => r.zipcode) = [some "10001"] := by decide

def w6Row : URow := { zipcode := some "10001", postal_code := some "11201-0000" }

def w6Df : GeoDF :=
  { rows := [w6Row], hasZipcodeCol := true, hasPostalCol := true, hasLatLonCols := false }

/-- C6 witness: both branches of the amended precedence statement at concrete
inputs (non-spatial path prefers the explicit zip; spatial path overwrites). -/
theorem zip_precedence_witness :
    ((spatiallyJoinZip w6Df none).rows =
        w6Df.rows.map (fun r => { r with zipcode := some (normZip (strOfOpt r.zipcode)) }))
    ∧ ((spatiallyJoinZip con6Df (some con6Sf)).rows = con6Df.rows.map (fun r =>
          { r with zipcode := some (normZip (strOfOpt
              (match r.latitude, r.longitude with
               | some la, some lo => con6Sf.lookup la lo
               | _, _ => none))) })) :=
  ⟨(zip_precedence w6Df none).1 (Or.inl rfl),
   (zip_precedence con6Df (some con6Sf)).2 con6Sf rfl rfl rfl⟩

end QMSS

